import Mathlib

/-!
Verification of the cache subsystem of the `bot-spx` repository
(`src/main.py`, `src/db_backend.py`): a two-tier (in-memory + durable)
keyed cache with TTL expiry, dual-key indexing and an upsert/read/purge
protocol.

The durable store (`product_cache` table, accessed through sqlite or the
libsql client) is modelled as an association list from cache keys to rows;
the Python `json` module is modelled at its contract boundary by a `Blob`
type that records whether a stored payload is a well-formed serialization,
a malformed non-empty string, or the empty string (Python `json.dumps`
never yields the empty string, and `json.loads` raises on any string that
is not valid JSON; the code guards every `json.loads` call with a
truthiness check on the payload, under which the empty string and SQL
`NULL` are both falsy).
-/

namespace BotSpx

/-- A product descriptor, as stored in `product_info`: a Python dict,
modelled as a key/value list (the cache never interprets its fields). -/
abbrev Item := List (String × String)

/-- The `items` payload of a cache record: a list of product descriptors. -/
abbrev Items := List Item

/-- The `address` sub-object stored inside `meta`. -/
abbrev Addr := List (String × String)

/-- The `meta` attribute bag: a Python dict mapping names (in practice the
single name `"address"`) to address sub-objects. -/
abbrev Meta := List (String × Addr)

/-- A stored text payload, at the contract boundary of Python's `json`
module: `ok v` is the (unique, non-empty) serialization `json.dumps(v)`,
`bad s` is a non-empty string on which `json.loads` raises, and `empty`
is the empty string (falsy in Python, and also not decodable). -/
inductive Blob (α : Type) where
  | ok (v : α)
  | bad (s : String)
  | empty
deriving DecidableEq, Repr

/-- `json.dumps`: serialization always yields a well-formed payload. -/
def jdumps {α : Type} (v : α) : Blob α := Blob.ok v

/-- Python truthiness of a stored text payload (only the empty string is
falsy). -/
def Blob.truthy {α : Type} : Blob α → Bool
  | Blob.empty => false
  | _ => true

/-- `json.loads(b) if b else None`: the guarded decode used by `db_get`.
`Except.error` models a raised `json.JSONDecodeError`. -/
def loadsIfTruthy {α : Type} : Blob α → Except String (Option α)
  | Blob.ok v => Except.ok (some v)
  | Blob.bad s => Except.error s
  | Blob.empty => Except.ok none

/-- The same guarded decode for a nullable column (`meta_json`): SQL
`NULL` is falsy, hence yields `None` without decoding. -/
def loadsOptIfTruthy {α : Type} : Option (Blob α) → Except String (Option α)
  | none => Except.ok none
  | some b => loadsIfTruthy b

/-- One row of the `product_cache` table: `cache_key` is the association
key; `items_json` is `TEXT NOT NULL`, `meta_json` is nullable `TEXT`,
`ts` is `INTEGER NOT NULL` (epoch seconds). -/
structure Row where
  items_json : Blob Items
  meta_json : Option (Blob Meta)
  ts : Int
deriving DecidableEq, Repr

/-- The durable store: the `product_cache` table as an association list
(`cache_key` is the primary key, so reachable tables never repeat a key). -/
abbrev DB := List (String × Row)

/-- `CACHE_TTL = 3 * 24 * 3600` (3 days), identical in both files. -/
def CACHE_TTL : Int := 3 * 24 * 3600

/-- Key lookup in an association list.  For the durable store this is
`SELECT ... WHERE cache_key = ?` (first row with the key); for the
in-memory cache it is `PRODUCT_CACHE.get(key)`. -/
def alFind {α : Type} : List (String × α) → String → Option α
  | [], _ => none
  | p :: ps, k => if p.1 = k then some p.2 else alFind ps k

/-- Key deletion: `DELETE FROM product_cache WHERE cache_key = ?`. -/
def alErase {α : Type} (db : List (String × α)) (k : String) :
    List (String × α) :=
  db.filter (fun p => !(p.1 == k))

/-- Keyed overwrite: replace the entry under the key if present,
otherwise add a new one.  For the durable store this is
`INSERT ... ON CONFLICT(cache_key) DO UPDATE` (atomic single-row upsert);
for the in-memory cache it is `PRODUCT_CACHE[key] = entry`. -/
def alSet {α : Type} (db : List (String × α)) (k : String) (r : α) :
    List (String × α) :=
  if db.any (fun p => p.1 == k) then
    db.map (fun p => if p.1 == k then (k, r) else p)
  else
    db ++ [(k, r)]

/-- `db_backend.db_upsert(cache_key, items, ts, meta)`: no-op when
`cache_key` or `items` is falsy; otherwise `ts = ts or _now()` (so a
falsy `ts`, i.e. `None` or `0`, is replaced by the clock), the meta bag
is normalized by `meta or {}`, both payloads are serialized, and the row
is written atomically (insert-or-update).  The sqlite and libsql branches
perform the same statement. -/
def db_upsert (cache_key : String) (items : Items) (ts : Option Int)
    (meta : Option Meta) (now : Int) (db : DB) : DB :=
  if cache_key = "" ∨ items = [] then db
  else
    let tsv : Int :=
      match ts with
      | some t => if t = 0 then now else t
      | none => now
    let metav : Meta :=
      match meta with
      | some m => if m = [] then [] else m
      | none => []
    alSet db cache_key ⟨jdumps items, some (jdumps metav), tsv⟩

/-- `main.db_upsert(cache_key, items, ts, meta)`: identical to the
backend version except that only `ts is None` (not `ts == 0`) is
replaced by the clock. -/
def main_db_upsert (cache_key : String) (items : Items) (ts : Option Int)
    (meta : Option Meta) (now : Int) (db : DB) : DB :=
  if cache_key = "" ∨ items = [] then db
  else
    let metav : Meta :=
      match meta with
      | some m => if m = [] then [] else m
      | none => []
    alSet db cache_key ⟨jdumps items, some (jdumps metav), ts.getD now⟩

/-- `db_get(cache_key)` (identical logic in `main.py` and in both
branches of `db_backend.py`): returns `(None, None)` on a falsy key or a
missing row; on a row with `now - ts > CACHE_TTL` deletes the row and
returns `(None, None)`; otherwise decodes the payloads (items first, as
in the source), propagating a decode failure.  The result pairs the
returned value (or raised error) with the resulting table state. -/
def db_get (cache_key : String) (now : Int) (db : DB) :
    Except String (Option Items × Option Meta) × DB :=
  if cache_key = "" then (Except.ok (none, none), db)
  else
    match alFind db cache_key with
    | none => (Except.ok (none, none), db)
    | some row =>
      if now - row.ts > CACHE_TTL then
        (Except.ok (none, none), alErase db cache_key)
      else
        match loadsIfTruthy row.items_json with
        | Except.error e => (Except.error e, db)
        | Except.ok i =>
          match loadsOptIfTruthy row.meta_json with
          | Except.error e => (Except.error e, db)
          | Except.ok m => (Except.ok (i, m), db)

/-- ASCII upcasing of one character, as sqlite's `LIKE` applies to the
letters `a`-`z`. -/
def asciiUpper (c : Char) : Char :=
  if 'a' ≤ c ∧ c ≤ 'z' then Char.ofNat (c.toNat - 32) else c

/-- Case-insensitive match of an (uppercase) pattern against the start
of a character list. -/
def likePrefixCI : List Char → List Char → Bool
  | [], _ => true
  | _ :: _, [] => false
  | p :: ps, c :: cs => (asciiUpper c == p) && likePrefixCI ps cs

/-- The sqlite `LIKE 'SPXVN%'` match (also written `'SPXVN%%'` in
`main.py`; two adjacent wildcards match exactly what one does): ASCII
case-insensitive prefix match. -/
def likeSPXVN (k : String) : Bool :=
  likePrefixCI "SPXVN".toList k.toList

/-- The `ts >= cutoff` freshness filter of `db_list_spx_keys`. -/
def rowFresh (now : Int) (r : Row) : Bool :=
  decide (now - CACHE_TTL ≤ r.ts)

/-- `ORDER BY ts DESC` on rows: later timestamps first. -/
def keyRowGE (a b : String × Row) : Prop := b.2.ts ≤ a.2.ts

instance : DecidableRel keyRowGE := fun a b => Int.decLe b.2.ts a.2.ts

instance : IsTotal (String × Row) keyRowGE :=
  ⟨fun a b => le_total b.2.ts a.2.ts⟩

instance : IsTrans (String × Row) keyRowGE :=
  ⟨fun _ _ _ h1 h2 => le_trans h2 h1⟩

/-- The row set produced by the query of `db_list_spx_keys`: rows
matching `LIKE 'SPXVN%'` with `ts >= now - CACHE_TTL`, ordered by `ts`
descending (`ORDER BY ts DESC`), truncated to `limit` rows
(`LIMIT ?`). -/
def listSpxRows (limit : Nat) (now : Int) (db : DB) : List (String × Row) :=
  (((db.filter (fun p => likeSPXVN p.1 && rowFresh now p.2))).insertionSort
      keyRowGE).take limit

/-- `db_list_spx_keys(limit)` (identical in both files): the `cache_key`
column of the rows selected by the query above. -/
def db_list_spx_keys (limit : Nat) (now : Int) (db : DB) : List String :=
  (listSpxRows limit now db).map Prod.fst

/-- `db_purge_expired()` (identical in both files):
`DELETE FROM product_cache WHERE ts < now - CACHE_TTL`. -/
def db_purge_expired (now : Int) (db : DB) : DB :=
  db.filter (fun p => decide (now - CACHE_TTL ≤ p.2.ts))

/-- One entry of the in-memory cache `PRODUCT_CACHE`:
`{"items": [...], "meta": {...}, "ts": int}`.  Every writer of the dict
(`cache_store_from_order` and the backfill in `cache_get_all`) stores a
non-`None` items list and a non-`None` meta dict. -/
structure MemEntry where
  items : Items
  meta : Meta
  ts : Int
deriving DecidableEq, Repr

/-- The in-memory cache `PRODUCT_CACHE`, a process-wide dict. -/
abbrev Mem := List (String × MemEntry)

/-- The state of the whole cache subsystem: the RAM dict plus the
durable table. -/
structure Sys where
  mem : Mem
  db : DB
deriving DecidableEq, Repr

/-- The value returned by `cache_get_all`:
`{"items": ..., "meta": ...}`. -/
structure LookupRes where
  items : Option Items
  meta : Option Meta
deriving DecidableEq, Repr

/-- `main.cache_get_all(key)`: memory first (served if the entry's age is
at most `CACHE_TTL`); otherwise `db_get`, and on a truthy items result
the memory is backfilled with `{"items": items, "meta": meta or {},
"ts": int(time())}` — a fresh timestamp and a normalized meta bag.  A
decode error raised by `db_get` propagates. -/
def cache_get_all (key : String) (now : Int) (s : Sys) :
    Except String LookupRes × Sys :=
  if key = "" then (Except.ok ⟨none, none⟩, s)
  else
    match alFind s.mem key with
    | some e =>
      if now - e.ts ≤ CACHE_TTL then
        (Except.ok ⟨some e.items, some e.meta⟩, s)
      else
        cacheGetAllFallback key now s
    | none => cacheGetAllFallback key now s
where
  /-- The durable-fallback path of `cache_get_all`. -/
  cacheGetAllFallback (key : String) (now : Int) (s : Sys) :
      Except String LookupRes × Sys :=
    match db_get key now s.db with
    | (Except.error e, db2) => (Except.error e, ⟨s.mem, db2⟩)
    | (Except.ok (items, meta), db2) =>
      match items with
      | some l =>
        if l = [] then (Except.ok ⟨items, meta⟩, ⟨s.mem, db2⟩)
        else
          (Except.ok ⟨items, meta⟩,
            ⟨alSet s.mem key ⟨l, meta.getD [], now⟩, db2⟩)
      | none => (Except.ok ⟨items, meta⟩, ⟨s.mem, db2⟩)

/-- `main.cache_get(key)`: compatibility wrapper returning only items. -/
def cache_get (key : String) (now : Int) (s : Sys) :
    Except String (Option Items) × Sys :=
  match cache_get_all key now s with
  | (Except.error e, s2) => (Except.error e, s2)
  | (Except.ok r, s2) => (Except.ok r.items, s2)

/-- A fetched order, as consumed by `cache_store_from_order`: the fields
`order_id`, `tracking_number`, `product_info` and `address` accessed via
`order.get(...)` (absent is `None`). -/
structure Order where
  order_id : Option String
  tracking_number : Option String
  product_info : Option Items
  address : Option Addr
deriving DecidableEq, Repr

/-- Python truthiness of an optional string (`None` and `""` are falsy). -/
def strTruthy : Option String → Bool
  | some s => !(s == "")
  | none => false

/-- `main.cache_store_from_order(order)`: no-op when
`order.get("product_info") or []` is empty; otherwise builds
`meta = {"address": order.get("address") or {}}` and the entry
`{"items": items, "meta": meta, "ts": int(time())}`, writes the entry
into RAM under the truthy `order_id` and `tracking_number` keys, and
then upserts the same payload under each of those keys in the durable
store. -/
def cache_store_from_order (o : Order) (now : Int) (s : Sys) : Sys :=
  let items := (o.product_info).getD []
  if items = [] then s
  else
    let meta : Meta := [("address", (o.address).getD [])]
    let entry : MemEntry := ⟨items, meta, now⟩
    let mem1 :=
      if strTruthy o.order_id then
        alSet s.mem ((o.order_id).getD "") entry
      else s.mem
    let mem2 :=
      if strTruthy o.tracking_number then
        alSet mem1 ((o.tracking_number).getD "") entry
      else mem1
    let db1 :=
      if strTruthy o.order_id then
        main_db_upsert ((o.order_id).getD "") items (some now) (some meta)
          now s.db
      else s.db
    let db2 :=
      if strTruthy o.tracking_number then
        main_db_upsert ((o.tracking_number).getD "") items (some now)
          (some meta) now db1
      else db1
    ⟨mem2, db2⟩

/-- The shape of the `product_cache` schema that `db_init` manipulates:
whether the table exists and whether it has the `meta_json` column
(a store created by an older schema version lacks it). -/
structure Schema where
  table_exists : Bool
  has_meta : Bool
deriving DecidableEq, Repr

/-- The sqlite branch of `db_init` (`db_backend.py` and `main.py`):
`CREATE TABLE IF NOT EXISTS` with the full four-column schema, then
`ALTER TABLE product_cache ADD COLUMN meta_json TEXT` inside
`try/except Exception: pass` (the `ALTER` raises when the column already
exists and that error is swallowed).  `Except.error` would model an
uncaught exception; this function never produces one. -/
def sqlite_db_init (s : Schema) : Except String Schema :=
  let s1 := if s.table_exists then s else ⟨true, true⟩
  let s2 := if s1.has_meta then s1 else ⟨s1.table_exists, true⟩
  Except.ok s2

/-- The libsql (Turso) branch of `db_backend.db_init`: only
`CREATE TABLE IF NOT EXISTS` with the full schema — there is no
`ALTER TABLE` migration step in this branch. -/
def turso_db_init (s : Schema) : Except String Schema :=
  Except.ok (if s.table_exists then s else ⟨true, true⟩)

/-- The operations that drive the cache subsystem, each stamped with the
clock value at which it runs: ingesting a fetched order, an orchestrator
lookup, the purge sweep, and a process restart (which clears the RAM
dict and keeps the durable table). -/
inductive Op where
  | store (o : Order)
  | lookup (k : String)
  | purge
  | restart
deriving DecidableEq, Repr

/-- One step of the subsystem. -/
def stepSys (s : Sys) (e : Op × Int) : Sys :=
  match e with
  | (Op.store o, t) => cache_store_from_order o t s
  | (Op.lookup k, t) => (cache_get_all k t s).2
  | (Op.purge, t) => ⟨s.mem, db_purge_expired t s.db⟩
  | (Op.restart, _) => ⟨[], s.db⟩

/-- Running a timed trace of operations. -/
def runSys (s : Sys) (tr : List (Op × Int)) : Sys :=
  tr.foldl stepSys s

/-- Does `cache_store_from_order o` write the key `k`?  (It does when its
items list is non-empty and `k` is its truthy order id or truthy
tracking number.) -/
def writesKey (o : Order) (k : String) : Bool :=
  !((o.product_info).getD [] == []) &&
    ((strTruthy o.order_id && ((o.order_id).getD "" == k)) ||
      (strTruthy o.tracking_number && ((o.tracking_number).getD "" == k)))

/-- Updating the last-write clock of every key across one operation. -/
def lastWriteUpd (w : String → Option Int) (e : Op × Int) :
    String → Option Int :=
  match e with
  | (Op.store o, t) => fun k => if writesKey o k then some t else w k
  | _ => w

/-- The time of the last write of key `k` in a trace (`none` when the
trace never stores under `k`). -/
def lastWrite (tr : List (Op × Int)) : String → Option Int :=
  tr.foldl lastWriteUpd (fun _ => none)

/-- A durable row is well-formed when its items payload is the
serialization of a non-empty list (what `db_upsert` always writes). -/
def rowOk (r : Row) : Bool :=
  match r.items_json with
  | Blob.ok items => !(items == [])
  | _ => false

/-- Every row of the durable store has a non-empty items payload. -/
def DBOk (db : DB) : Bool :=
  db.all (fun p => rowOk p.2)

/-- The timing invariant tying both cache tiers to the last-write clock
`w`: every durable row was written at a time at least its own timestamp,
and every RAM entry's timestamp is at most one TTL past the key's last
write (RAM backfills stamp the read time, which lazy expiry bounds by
the write time plus one TTL). -/
def Inv (w : String → Option Int) (s : Sys) : Prop :=
  (∀ k r, (k, r) ∈ s.db → ∃ t, w k = some t ∧ r.ts ≤ t) ∧
    (∀ k e, (k, e) ∈ s.mem → ∃ t, w k = some t ∧ e.ts ≤ t + CACHE_TTL)

/-! ### Association-list lemmas -/

theorem alFind_eq_some {α : Type} {db : List (String × α)} {k : String} {r : α}
    (h : alFind db k = some r) : (k, r) ∈ db := by
  induction db with
  | nil => simp [alFind] at h
  | cons a as ih =>
    by_cases hak : a.1 = k
    · rw [alFind, if_pos hak] at h
      obtain ⟨a1, a2⟩ := a
      simp only at hak
      simp only [Option.some.injEq] at h
      subst hak
      subst h
      exact List.mem_cons_self _ _
    · rw [alFind, if_neg hak] at h
      exact List.mem_cons_of_mem a (ih h)

theorem mem_alErase {α : Type} {db : List (String × α)} {k : String} {p : String × α}
    (h : p ∈ alErase db k) : p ∈ db ∧ p.1 ≠ k := by
  unfold alErase at h
  have := List.mem_filter.mp h
  refine ⟨this.1, ?_⟩
  simpa using this.2

theorem alFind_alErase_self {α : Type} (db : List (String × α)) (k : String) :
    alFind (alErase db k) k = none := by
  induction db with
  | nil => rfl
  | cons a as ih =>
    by_cases hak : a.1 = k
    · simpa [alErase, List.filter, hak] using ih
    · simp only [alErase, List.filter] at ih ⊢
      rw [show (!(a.1 == k)) = true by simpa using hak]
      rw [alFind, if_neg hak]
      exact ih

theorem mem_alSet {α : Type} {db : List (String × α)} {k : String} {r : α} {p : String × α}
    (h : p ∈ alSet db k r) : p = (k, r) ∨ (p ∈ db ∧ p.1 ≠ k) := by
  unfold alSet at h
  by_cases hc : db.any (fun p => p.1 == k)
  · rw [if_pos hc] at h
    obtain ⟨q, hq, hqe⟩ := List.mem_map.mp h
    by_cases hk : q.1 = k
    · left
      rw [← hqe, if_pos (by simpa using hk)]
    · right
      rw [← hqe, if_neg (by simpa using hk)]
      exact ⟨hq, hk⟩
  · rw [if_neg hc] at h
    rcases List.mem_append.mp h with hin | hnew
    · right
      refine ⟨hin, ?_⟩
      intro hk
      exact hc (List.any_eq_true.mpr ⟨p, hin, by simpa using hk⟩)
    · left; simpa using hnew

theorem alFind_eq_none_of_not_any {α : Type} {db : List (String × α)} {k : String}
    (hc : ¬db.any (fun p => p.1 == k)) : alFind db k = none := by
  induction db with
  | nil => rfl
  | cons a as ih =>
    have hak : ¬a.1 = k := by
      intro hk
      exact hc (List.any_eq_true.mpr ⟨a, by simp, by simpa using hk⟩)
    rw [alFind, if_neg hak]
    exact ih fun hany => by
      obtain ⟨q, hq, hqk⟩ := List.any_eq_true.mp hany
      exact hc (List.any_eq_true.mpr ⟨q, List.mem_cons_of_mem a hq, hqk⟩)

theorem alFind_append_left {α : Type} {db db' : List (String × α)} {k : String} {r : α}
    (h : alFind db k = some r) : alFind (db ++ db') k = some r := by
  induction db with
  | nil => simp [alFind] at h
  | cons a as ih =>
    by_cases hak : a.1 = k
    · rw [alFind, if_pos hak] at h
      rw [List.cons_append, alFind, if_pos hak]
      exact h
    · rw [alFind, if_neg hak] at h
      rw [List.cons_append, alFind, if_neg hak]
      exact ih h

theorem alFind_append_none {α : Type} {db db' : List (String × α)} {k : String}
    (h : alFind db k = none) : alFind (db ++ db') k = alFind db' k := by
  induction db with
  | nil => rfl
  | cons a as ih =>
    by_cases hak : a.1 = k
    · rw [alFind, if_pos hak] at h
      exact absurd h (by simp)
    · rw [alFind, if_neg hak] at h
      rw [List.cons_append, alFind, if_neg hak]
      exact ih h

theorem alFind_map_set_self {α : Type} {db : List (String × α)} {k : String} {r : α}
    (hc : db.any (fun p => p.1 == k)) :
    alFind (db.map (fun p => if p.1 == k then (k, r) else p)) k = some r := by
  induction db with
  | nil => simp at hc
  | cons a as ih =>
    by_cases hak : a.1 = k
    · rw [List.map_cons, if_pos (by simpa using hak), alFind, if_pos rfl]
    · rw [List.map_cons, if_neg (by simpa using hak), alFind, if_neg hak]
      refine ih ?_
      rcases List.any_eq_true.mp hc with ⟨q, hq, hqk⟩
      rcases List.mem_cons.mp hq with hqa | hqa
      · exact absurd (by subst hqa; simpa using hqk) hak
      · exact List.any_eq_true.mpr ⟨q, hqa, hqk⟩

theorem alFind_map_set_ne {α : Type} {db : List (String × α)} {k k' : String} {r : α}
    (hne : k ≠ k') :
    alFind (db.map (fun p => if p.1 == k' then (k', r) else p)) k
      = alFind db k := by
  induction db with
  | nil => rfl
  | cons a as ih =>
    by_cases hak : a.1 = k'
    · rw [List.map_cons, if_pos (by simpa using hak), alFind,
        if_neg (fun h => hne h.symm), alFind, if_neg (hak ▸ fun h => hne h.symm)]
      exact ih
    · rw [List.map_cons, if_neg (by simpa using hak)]
      by_cases hk : a.1 = k
      · rw [alFind, if_pos hk, alFind, if_pos hk]
      · rw [alFind, if_neg hk, alFind, if_neg hk]
        exact ih

theorem alFind_alSet_self {α : Type} (db : List (String × α)) (k : String) (r : α) :
    alFind (alSet db k r) k = some r := by
  unfold alSet
  by_cases hc : db.any (fun p => p.1 == k)
  · rw [if_pos hc]
    exact alFind_map_set_self hc
  · rw [if_neg hc, alFind_append_none (alFind_eq_none_of_not_any hc),
      alFind, if_pos rfl]

theorem alFind_alSet_ne {α : Type} (db : List (String × α)) (k k' : String) (r : α) (hne : k ≠ k') :
    alFind (alSet db k' r) k = alFind db k := by
  unfold alSet
  by_cases hc : db.any (fun p => p.1 == k')
  · rw [if_pos hc]
    exact alFind_map_set_ne hne
  · rw [if_neg hc]
    cases hf : alFind db k with
    | some r' => exact alFind_append_left hf
    | none =>
      rw [alFind_append_none hf, alFind, if_neg (fun h => hne h.symm)]
      rfl

/-! ### The purge sweep (C6) -/

/-- C6: for every durable-store state, `db_purge_expired` deletes exactly
the rows whose timestamp is strictly below `now - CACHE_TTL`: a row is in
the purged table iff it was in the table and satisfies
`now - CACHE_TTL ≤ ts` (so a row at exactly the cutoff is retained,
unchanged). -/
theorem purge_expired_removes_exactly_expired (now : Int) (db : DB)
    (k : String) (r : Row) :
    (k, r) ∈ db_purge_expired now db ↔
      ((k, r) ∈ db ∧ now - CACHE_TTL ≤ r.ts) := by
  simp [db_purge_expired, List.mem_filter]

/-! ### Lazy expiry on read (C5) -/

/-- C5: `db_get` on a (non-falsy) key whose stored row has
`now - ts > CACHE_TTL` returns the absent result, and as a side effect of
that same call the row is deleted from the durable store. -/
theorem db_get_expired_deletes (k : String) (now : Int) (db : DB) (r : Row)
    (hk : k ≠ "") (hfind : alFind db k = some r)
    (hexp : now - r.ts > CACHE_TTL) :
    (db_get k now db).1 = Except.ok (none, none) ∧
      (db_get k now db).2 = alErase db k ∧
      alFind (db_get k now db).2 k = none := by
  have h1 : db_get k now db = (Except.ok (none, none), alErase db k) := by
    unfold db_get
    rw [if_neg hk]
    simp only [hfind]
    rw [if_pos hexp]
  refine ⟨by rw [h1], by rw [h1], ?_⟩
  rw [h1]
  exact alFind_alErase_self db k

/-- Witness for C5: a row written with `ts = now - CACHE_TTL - 1` is
absent from `db_get` and removed by that call. -/
theorem db_get_expired_deletes_witness :
    (db_get "K" (CACHE_TTL + 1)
        [("K", ⟨Blob.ok [[("name", "x")]], some (Blob.ok []), 0⟩)]).1 =
      Except.ok (none, none) ∧
      (db_get "K" (CACHE_TTL + 1)
          [("K", ⟨Blob.ok [[("name", "x")]], some (Blob.ok []), 0⟩)]).2 =
        alErase [("K", ⟨Blob.ok [[("name", "x")]], some (Blob.ok []), 0⟩)] "K" ∧
      alFind (db_get "K" (CACHE_TTL + 1)
          [("K", ⟨Blob.ok [[("name", "x")]], some (Blob.ok []), 0⟩)]).2 "K" =
        none :=
  db_get_expired_deletes "K" (CACHE_TTL + 1)
    [("K", ⟨Blob.ok [[("name", "x")]], some (Blob.ok []), 0⟩)]
    ⟨Blob.ok [[("name", "x")]], some (Blob.ok []), 0⟩
    (by decide) (by decide) (by decide)

/-! ### Upsert/get round-trip (C3) -/

/-- C3: an upsert of a non-empty key, a non-empty items list and a meta
bag, followed by `db_get` on the same key with no intervening time
advance past the TTL, returns exactly the written items and exactly the
written meta.  (`ts ≠ 0` because `db_backend.db_upsert` replaces a falsy
timestamp by the clock; epoch timestamps are positive.) -/
theorem upsert_get_roundtrip (k : String) (items : Items) (m : Meta)
    (ts tw now : Int) (db : DB)
    (hk : k ≠ "") (hi : items ≠ []) (hts : ts ≠ 0)
    (hfresh : now - ts ≤ CACHE_TTL) :
    (db_get k now (db_upsert k items (some ts) (some m) tw db)).1 =
      Except.ok (some items, some m) := by
  have hm : (if m = [] then ([] : Meta) else m) = m := by
    by_cases h : m = [] <;> simp [h]
  have hrow : db_upsert k items (some ts) (some m) tw db =
      alSet db k ⟨Blob.ok items, some (Blob.ok m), ts⟩ := by
    unfold db_upsert
    rw [if_neg (not_or.mpr ⟨hk, hi⟩)]
    simp only [jdumps, hm]
    rw [if_neg hts]
  rw [hrow]
  unfold db_get
  rw [if_neg hk]
  simp only [alFind_alSet_self]
  rw [if_neg (not_lt.mpr hfresh)]
  rfl

/-- Witness for C3: the round-trip at a concrete key, item list, meta
bag and timestamp. -/
theorem upsert_get_roundtrip_witness :
    (db_get "A1" 1
        (db_upsert "A1" [[("name", "Shirt"), ("amount", "2")]] (some 1)
          (some [("address", [("shipping_name", "X")])]) 1 [])).1 =
      Except.ok (some [[("name", "Shirt"), ("amount", "2")]],
        some [("address", [("shipping_name", "X")])]) :=
  upsert_get_roundtrip "A1" [[("name", "Shirt"), ("amount", "2")]]
    [("address", [("shipping_name", "X")])] 1 1 1 []
    (by decide) (by decide) (by decide) (by decide)

/-! ### Malformed stored payloads (C4) -/

/-- Counterexample to C4 as stated: two stored rows whose serialized
payload is malformed (not decodable by `json.loads`) on which `db_get`
does not raise.  First, a non-expired row whose `items_json` is the
empty string (the empty string is not valid JSON, yet it is falsy, so
the guarded decode silently coerces it): `db_get` returns the absent
items without error.  Second, an expired row with a malformed non-empty
payload: lazy expiry deletes it and returns the plain miss result
without ever decoding. -/
theorem db_get_malformed_counterexample :
    (db_get "K" 0 [("K", ⟨Blob.empty, some (Blob.ok []), 0⟩)]).1 =
      Except.ok (none, some []) ∧
      (db_get "K" (CACHE_TTL + 1)
          [("K", ⟨Blob.bad "corrupt", some (Blob.ok []), 0⟩)]).1 =
        Except.ok (none, none) := by
  exact ⟨rfl, rfl⟩

/-- C4 amended: for every non-expired stored row (under a non-falsy key)
whose serialized items or meta payload is malformed and non-empty,
`db_get` raises an error surfaced to the caller (and does not touch the
store); an empty-string payload is instead silently coerced to absent,
and an expired row is deleted without decoding at all. -/
theorem db_get_malformed_raises (k : String) (now : Int) (db : DB) (r : Row)
    (hk : k ≠ "") (hfind : alFind db k = some r)
    (hfresh : ¬now - r.ts > CACHE_TTL)
    (hbad : (∃ s, r.items_json = Blob.bad s) ∨
      (∃ s, r.meta_json = some (Blob.bad s))) :
    ∃ e, db_get k now db = (Except.error e, db) := by
  unfold db_get
  rw [if_neg hk]
  simp only [hfind]
  rw [if_neg hfresh]
  cases hitems : r.items_json with
  | bad s => exact ⟨s, by simp [loadsIfTruthy]⟩
  | ok v =>
    rcases hbad with ⟨s, hs⟩ | ⟨s, hs⟩
    · rw [hitems] at hs; exact absurd hs (by simp)
    · rw [hs]
      exact ⟨s, by simp [loadsIfTruthy, loadsOptIfTruthy]⟩
  | empty =>
    rcases hbad with ⟨s, hs⟩ | ⟨s, hs⟩
    · rw [hitems] at hs; exact absurd hs (by simp)
    · rw [hs]
      exact ⟨s, by simp [loadsIfTruthy, loadsOptIfTruthy]⟩

/-- Witness for the amended C4: a fresh row whose items payload is a
malformed non-empty string makes `db_get` raise. -/
theorem db_get_malformed_raises_witness :
    ∃ e, db_get "K" 0 [("K", ⟨Blob.bad "corrupt", some (Blob.ok []), 0⟩)] =
      (Except.error e, [("K", ⟨Blob.bad "corrupt", some (Blob.ok []), 0⟩)]) :=
  db_get_malformed_raises "K" 0
    [("K", ⟨Blob.bad "corrupt", some (Blob.ok []), 0⟩)]
    ⟨Blob.bad "corrupt", some (Blob.ok []), 0⟩
    (by decide) (by decide) (by decide) (Or.inl ⟨"corrupt", rfl⟩)

/-! ### Schema initialization (C2) -/

/-- Counterexample to C2 as stated: for the remote libsql backend,
`db_init` against a store created by an older schema version that lacks
the meta column leaves the schema unchanged — the resulting schema still
lacks the `meta_json` column (there is no `ALTER TABLE` in that branch). -/
theorem db_init_turso_counterexample :
    turso_db_init ⟨true, false⟩ = Except.ok ⟨true, false⟩ ∧
      (Schema.mk true false).has_meta = false := by
  exact ⟨rfl, rfl⟩

/-- C2 amended: the embedded sqlite backend's `db_init` always succeeds
and always results in the full schema with the meta column, from any
starting schema (in particular it migrates an older store, and calling
it again when the column exists succeeds because the `ALTER` error is
swallowed); the remote libsql backend's `db_init` always succeeds and
creates the full schema when the table is absent, but performs no
migration on an existing table — and both are idempotent. -/
theorem db_init_both_backends (s : Schema) :
    sqlite_db_init s = Except.ok ⟨true, true⟩ ∧
      turso_db_init s = Except.ok (if s.table_exists then s else ⟨true, true⟩) ∧
      sqlite_db_init ⟨true, true⟩ = Except.ok ⟨true, true⟩ ∧
      turso_db_init (if s.table_exists then s else ⟨true, true⟩) =
        Except.ok (if s.table_exists then s else ⟨true, true⟩) := by
  rcases s with ⟨te, hm⟩
  cases te <;> cases hm <;> exact ⟨rfl, rfl, rfl, rfl⟩

/-! ### State-shape helper lemmas -/

theorem strTruthy_ne {x : Option String} (h : strTruthy x = true) :
    x.getD "" ≠ "" := by
  cases x with
  | none => simp [strTruthy] at h
  | some s => simpa [strTruthy] using h

theorem main_db_upsert_eq (k : String) (items : Items) (ts : Option Int)
    (m : Meta) (now : Int) (db : DB) (hk : k ≠ "") (hi : items ≠ []) :
    main_db_upsert k items ts (some m) now db =
      alSet db k ⟨Blob.ok items, some (Blob.ok m), ts.getD now⟩ := by
  have hm : (if m = [] then ([] : Meta) else m) = m := by
    by_cases h : m = [] <;> simp [h]
  unfold main_db_upsert
  rw [if_neg (not_or.mpr ⟨hk, hi⟩)]
  simp only [jdumps, hm]

theorem cache_store_eq (o : Order) (now : Int) (s : Sys)
    (hi : (o.product_info).getD [] ≠ []) :
    cache_store_from_order o now s =
      ⟨(if strTruthy o.tracking_number then
          alSet
            (if strTruthy o.order_id then
              alSet s.mem ((o.order_id).getD "")
                ⟨(o.product_info).getD [],
                  [("address", (o.address).getD [])], now⟩
            else s.mem)
            ((o.tracking_number).getD "")
            ⟨(o.product_info).getD [],
              [("address", (o.address).getD [])], now⟩
        else
          (if strTruthy o.order_id then
            alSet s.mem ((o.order_id).getD "")
              ⟨(o.product_info).getD [],
                [("address", (o.address).getD [])], now⟩
          else s.mem)),
        (if strTruthy o.tracking_number then
          main_db_upsert ((o.tracking_number).getD "")
            ((o.product_info).getD []) (some now)
            (some [("address", (o.address).getD [])]) now
            (if strTruthy o.order_id then
              main_db_upsert ((o.order_id).getD "")
                ((o.product_info).getD []) (some now)
                (some [("address", (o.address).getD [])]) now s.db
            else s.db)
        else
          (if strTruthy o.order_id then
            main_db_upsert ((o.order_id).getD "")
              ((o.product_info).getD []) (some now)
              (some [("address", (o.address).getD [])]) now s.db
          else s.db))⟩ := by
  unfold cache_store_from_order
  rw [if_neg hi]

theorem db_get_state (k : String) (now : Int) (db : DB) :
    (db_get k now db).2 = db ∨ (db_get k now db).2 = alErase db k := by
  unfold db_get
  split
  · left; rfl
  · split
    · left; rfl
    · split
      · right; rfl
      · split
        · left; rfl
        · split
          · left; rfl
          · left; rfl

theorem cache_get_all_fallback_db (key : String) (now : Int) (s : Sys)
    (res : Except String (Option Items × Option Meta)) (db2 : DB)
    (hget : db_get key now s.db = (res, db2)) :
    ((cache_get_all.cacheGetAllFallback key now s).2).db = db2 := by
  unfold cache_get_all.cacheGetAllFallback
  rw [hget]
  cases res with
  | error e => rfl
  | ok v =>
    rcases v with ⟨items, meta⟩
    cases items with
    | none => rfl
    | some l =>
      by_cases hl : l = []
      · simp [hl]
      · simp [hl]

theorem cache_get_all_db (key : String) (now : Int) (s : Sys) :
    ((cache_get_all key now s).2).db = s.db ∨
      ((cache_get_all key now s).2).db = (db_get key now s.db).2 := by
  unfold cache_get_all
  split
  · left; rfl
  · split
    · split
      · left; rfl
      · right; exact cache_get_all_fallback_db key now s _ _ rfl
    · right; exact cache_get_all_fallback_db key now s _ _ rfl

theorem DBOk_filter {db : DB} {f : String × Row → Bool}
    (h : DBOk db = true) : DBOk (db.filter f) = true := by
  simp only [DBOk, List.all_eq_true] at h ⊢
  exact fun p hp => h p (List.mem_filter.mp hp).1

theorem DBOk_alSet {db : DB} {k : String} {r : Row}
    (h : DBOk db = true) (hr : rowOk r = true) :
    DBOk (alSet db k r) = true := by
  simp only [DBOk, List.all_eq_true] at h ⊢
  intro p hp
  rcases mem_alSet hp with hp1 | ⟨hp2, _⟩
  · rw [hp1]; exact hr
  · exact h p hp2

theorem DBOk_db_upsert (k : String) (items : Items) (ts : Option Int)
    (m : Option Meta) (now : Int) (db : DB) (h : DBOk db = true) :
    DBOk (db_upsert k items ts m now db) = true := by
  unfold db_upsert
  by_cases hg : k = "" ∨ items = []
  · rw [if_pos hg]; exact h
  · rw [if_neg hg]
    exact DBOk_alSet h (by simp [rowOk, jdumps, (not_or.mp hg).2])

theorem DBOk_main_db_upsert (k : String) (items : Items) (ts : Option Int)
    (m : Option Meta) (now : Int) (db : DB) (h : DBOk db = true) :
    DBOk (main_db_upsert k items ts m now db) = true := by
  unfold main_db_upsert
  by_cases hg : k = "" ∨ items = []
  · rw [if_pos hg]; exact h
  · rw [if_neg hg]
    exact DBOk_alSet h (by simp [rowOk, jdumps, (not_or.mp hg).2])

theorem DBOk_db_get (k : String) (now : Int) (db : DB)
    (h : DBOk db = true) : DBOk (db_get k now db).2 = true := by
  rcases db_get_state k now db with hs | hs <;> rw [hs]
  · exact h
  · exact DBOk_filter h

theorem DBOk_cache_store (o : Order) (now : Int) (s : Sys)
    (h : DBOk s.db = true) :
    DBOk (cache_store_from_order o now s).db = true := by
  by_cases hi : (o.product_info).getD [] = []
  · unfold cache_store_from_order
    rw [if_pos hi]
    exact h
  · rw [cache_store_eq o now s hi]
    by_cases htn : strTruthy o.tracking_number = true
    · by_cases hoid : strTruthy o.order_id = true
      · simp only [if_pos htn, if_pos hoid]
        exact DBOk_main_db_upsert _ _ _ _ _ _
          (DBOk_main_db_upsert _ _ _ _ _ _ h)
      · simp only [if_pos htn, if_neg hoid]
        exact DBOk_main_db_upsert _ _ _ _ _ _ h
    · by_cases hoid : strTruthy o.order_id = true
      · simp only [if_neg htn, if_pos hoid]
        exact DBOk_main_db_upsert _ _ _ _ _ _ h
      · simp only [if_neg htn, if_neg hoid]
        exact h

theorem DBOk_cache_get_all (key : String) (now : Int) (s : Sys)
    (h : DBOk s.db = true) :
    DBOk ((cache_get_all key now s).2).db = true := by
  rcases cache_get_all_db key now s with hs | hs <;> rw [hs]
  · exact h
  · exact DBOk_db_get key now s.db h

/-! ### The non-empty-items invariant (C9) -/

/-- C9: `db_upsert` (either variant) with an empty key or an empty items
list leaves the durable store completely unchanged, and the invariant
that every stored row's items payload is the serialization of a
non-empty list is preserved by every operation of the subsystem: both
upserts, `db_get` (which only deletes), `db_purge_expired`, the
orchestrator's `cache_store_from_order` and `cache_get_all`. -/
theorem empty_upsert_noop_and_nonempty_items_invariant
    (k1 k2 key gkey : String) (items1 items2 : Items)
    (ts1 ts2 : Option Int) (m1 m2 : Option Meta) (now : Int) (db : DB)
    (o : Order) (s : Sys)
    (hbad : k1 = "" ∨ items1 = [])
    (hdb : DBOk db = true) (hs : DBOk s.db = true) :
    db_upsert k1 items1 ts1 m1 now db = db ∧
      main_db_upsert k1 items1 ts1 m1 now db = db ∧
      DBOk (db_upsert k2 items2 ts2 m2 now db) = true ∧
      DBOk (main_db_upsert k2 items2 ts2 m2 now db) = true ∧
      DBOk (db_get key now db).2 = true ∧
      DBOk (db_purge_expired now db) = true ∧
      DBOk (cache_store_from_order o now s).db = true ∧
      DBOk ((cache_get_all gkey now s).2).db = true := by
  refine ⟨?_, ?_, ?_, ?_, ?_, ?_, ?_, ?_⟩
  · unfold db_upsert; rw [if_pos hbad]
  · unfold main_db_upsert; rw [if_pos hbad]
  · exact DBOk_db_upsert _ _ _ _ _ _ hdb
  · exact DBOk_main_db_upsert _ _ _ _ _ _ hdb
  · exact DBOk_db_get _ _ _ hdb
  · exact DBOk_filter hdb
  · exact DBOk_cache_store _ _ _ hs
  · exact DBOk_cache_get_all _ _ _ hs

/-- Witness for C9 at concrete inputs: an upsert with an empty items
list is a no-op and the invariant is preserved on a concrete one-row
store. -/
theorem empty_upsert_noop_witness :
    db_upsert "K" [] none none 7
        [("K", ⟨Blob.ok [[("name", "x")]], none, 0⟩)] =
      [("K", ⟨Blob.ok [[("name", "x")]], none, 0⟩)] ∧
      main_db_upsert "K" [] none none 7
          [("K", ⟨Blob.ok [[("name", "x")]], none, 0⟩)] =
        [("K", ⟨Blob.ok [[("name", "x")]], none, 0⟩)] ∧
      DBOk (db_upsert "L" [[("a", "b")]] none none 7
          [("K", ⟨Blob.ok [[("name", "x")]], none, 0⟩)]) = true ∧
      DBOk (main_db_upsert "L" [[("a", "b")]] none none 7
          [("K", ⟨Blob.ok [[("name", "x")]], none, 0⟩)]) = true ∧
      DBOk (db_get "K" 7
          [("K", ⟨Blob.ok [[("name", "x")]], none, 0⟩)]).2 = true ∧
      DBOk (db_purge_expired 7
          [("K", ⟨Blob.ok [[("name", "x")]], none, 0⟩)]) = true ∧
      DBOk (cache_store_from_order
          ⟨some "A1", some "B2", some [[("a", "b")]], none⟩ 7
          ⟨[], [("K", ⟨Blob.ok [[("name", "x")]], none, 0⟩)]⟩).db = true ∧
      DBOk ((cache_get_all "K" 7
          ⟨[], [("K", ⟨Blob.ok [[("name", "x")]], none, 0⟩)]⟩).2).db = true :=
  empty_upsert_noop_and_nonempty_items_invariant "K" "L" "K" "K"
    [] [[("a", "b")]] none none none none 7
    [("K", ⟨Blob.ok [[("name", "x")]], none, 0⟩)]
    ⟨some "A1", some "B2", some [[("a", "b")]], none⟩
    ⟨[], [("K", ⟨Blob.ok [[("name", "x")]], none, 0⟩)]⟩
    (Or.inr rfl) (by decide) (by decide)

/-! ### Meta normalization on backfill (C10) -/

/-- C10: there is a state — a fresh durable row whose `meta_json` is SQL
`NULL` (a legacy row), with the key not held in memory — on which
`cache_get_all` returns the items with meta absent, but backfills the
memory entry with meta normalized to the empty bag, so that the
immediately repeated `cache_get_all` of the same unchanged key returns
meta = the empty bag instead of absent: two consecutive lookups of the
same key return different meta values. -/
theorem consecutive_lookups_differ_on_meta :
    (cache_get_all "K" 0
        ⟨[], [("K", ⟨Blob.ok [[("name", "x")]], none, 0⟩)]⟩).1 =
      Except.ok ⟨some [[("name", "x")]], none⟩ ∧
      (cache_get_all "K" 0
          (cache_get_all "K" 0
            ⟨[], [("K", ⟨Blob.ok [[("name", "x")]], none, 0⟩)]⟩).2).1 =
        Except.ok ⟨some [[("name", "x")]], some []⟩ ∧
      (none : Option Meta) ≠ some [] := by
  exact ⟨rfl, rfl, by decide⟩

/-! ### Dual-key store and lookup (C7) -/

theorem cache_get_all_mem_hit (key : String) (now : Int) (s : Sys)
    (e : MemEntry) (hk : key ≠ "") (hfind : alFind s.mem key = some e)
    (hfr : now - e.ts ≤ CACHE_TTL) :
    cache_get_all key now s = (Except.ok ⟨some e.items, some e.meta⟩, s) := by
  unfold cache_get_all
  rw [if_neg hk]
  simp only [hfind]
  rw [if_pos hfr]

/-- C7: after `cache_store_from_order` on an order with a non-empty
`product_info` and truthy `order_id` and `tracking_number`,
`cache_get_all` on the order id and — independently — on the tracking
number, each performed within the TTL window of the store, both return
exactly the stored items (the order's `product_info`) together with the
stored meta bag. -/
theorem store_then_lookup_both_keys (o : Order) (s : Sys)
    (tw t1 t2 : Int) (items : Items)
    (hitems : o.product_info = some items) (hne : items ≠ [])
    (hoid : strTruthy o.order_id = true)
    (htn : strTruthy o.tracking_number = true)
    (h1 : t1 - tw ≤ CACHE_TTL) (h2 : t2 - tw ≤ CACHE_TTL) :
    (cache_get_all ((o.order_id).getD "") t1
        (cache_store_from_order o tw s)).1 =
      Except.ok ⟨some items, some [("address", (o.address).getD [])]⟩ ∧
      (cache_get_all ((o.tracking_number).getD "") t2
          (cache_store_from_order o tw s)).1 =
        Except.ok ⟨some items, some [("address", (o.address).getD [])]⟩ := by
  have hgetD : (o.product_info).getD [] = items := by rw [hitems]; rfl
  have hne' : (o.product_info).getD [] ≠ [] := by rw [hgetD]; exact hne
  have hmem : (cache_store_from_order o tw s).mem =
      alSet (alSet s.mem ((o.order_id).getD "")
          ⟨items, [("address", (o.address).getD [])], tw⟩)
        ((o.tracking_number).getD "")
        ⟨items, [("address", (o.address).getD [])], tw⟩ := by
    rw [cache_store_eq o tw s hne']
    simp only [if_pos htn, if_pos hoid, hgetD]
  have hfind1 : alFind (cache_store_from_order o tw s).mem
      ((o.order_id).getD "") =
      some ⟨items, [("address", (o.address).getD [])], tw⟩ := by
    rw [hmem]
    by_cases heq : (o.order_id).getD "" = (o.tracking_number).getD ""
    · rw [heq]
      exact alFind_alSet_self _ _ _
    · rw [alFind_alSet_ne _ _ _ _ heq]
      exact alFind_alSet_self _ _ _
  have hfind2 : alFind (cache_store_from_order o tw s).mem
      ((o.tracking_number).getD "") =
      some ⟨items, [("address", (o.address).getD [])], tw⟩ := by
    rw [hmem]
    exact alFind_alSet_self _ _ _
  constructor
  · rw [cache_get_all_mem_hit _ t1 _ _ (strTruthy_ne hoid) hfind1 h1]
  · rw [cache_get_all_mem_hit _ t2 _ _ (strTruthy_ne htn) hfind2 h2]

/-- Witness for C7: the spec's concrete scenario — an order with id
`A1`, tracking number `B2` and one product — is retrievable under both
keys right after the store. -/
theorem store_then_lookup_both_keys_witness :
    (cache_get_all "A1" 0
        (cache_store_from_order
          ⟨some "A1", some "B2", some [[("name", "Shirt"), ("amount", "2")]],
            some [("shipping_name", "X")]⟩ 0 ⟨[], []⟩)).1 =
      Except.ok ⟨some [[("name", "Shirt"), ("amount", "2")]],
        some [("address", [("shipping_name", "X")])]⟩ ∧
      (cache_get_all "B2" 0
          (cache_store_from_order
            ⟨some "A1", some "B2", some [[("name", "Shirt"), ("amount", "2")]],
              some [("shipping_name", "X")]⟩ 0 ⟨[], []⟩)).1 =
        Except.ok ⟨some [[("name", "Shirt"), ("amount", "2")]],
          some [("address", [("shipping_name", "X")])]⟩ :=
  store_then_lookup_both_keys
    ⟨some "A1", some "B2", some [[("name", "Shirt"), ("amount", "2")]],
      some [("shipping_name", "X")]⟩ ⟨[], []⟩ 0 0 0
    [[("name", "Shirt"), ("amount", "2")]]
    rfl (by decide) (by decide) (by decide) (by decide) (by decide)

/-! ### Listing recent SPX keys (C8) -/

/-- C8: every key returned by `db_list_spx_keys` matches the `SPXVN`
pattern and belongs to a stored row whose timestamp is not past the TTL
cutoff (`now - CACHE_TTL ≤ ts`); the result holds at most `limit` keys;
and the keys are the first column of a row list sorted by timestamp
descending whose rows all come from the store. -/
theorem list_spx_keys_sound (limit : Nat) (now : Int) (db : DB) :
    (∀ k, k ∈ db_list_spx_keys limit now db →
      likeSPXVN k = true ∧ ∃ r, (k, r) ∈ db ∧ now - CACHE_TTL ≤ r.ts) ∧
      (db_list_spx_keys limit now db).length ≤ limit ∧
      db_list_spx_keys limit now db = (listSpxRows limit now db).map Prod.fst ∧
      List.Sorted keyRowGE (listSpxRows limit now db) := by
  have hmemrows : ∀ p ∈ listSpxRows limit now db,
      p ∈ db ∧ likeSPXVN p.1 = true ∧ now - CACHE_TTL ≤ p.2.ts := by
    intro p hp
    have hp1 : p ∈ (db.filter
        (fun p => likeSPXVN p.1 && rowFresh now p.2)).insertionSort keyRowGE :=
      List.take_subset _ _ hp
    have hp2 := (List.mem_insertionSort keyRowGE).mp hp1
    have hp3 := List.mem_filter.mp hp2
    have hp4 := Bool.and_eq_true_iff.mp hp3.2
    refine ⟨hp3.1, hp4.1, ?_⟩
    have := hp4.2
    unfold rowFresh at this
    exact of_decide_eq_true this
  refine ⟨?_, ?_, rfl, ?_⟩
  · intro k hk
    obtain ⟨p, hp, hpk⟩ := List.mem_map.mp hk
    obtain ⟨hpdb, hplike, hpfresh⟩ := hmemrows p hp
    subst hpk
    exact ⟨hplike, p.2, hpdb, hpfresh⟩
  · calc (db_list_spx_keys limit now db).length
        = (listSpxRows limit now db).length := by
          unfold db_list_spx_keys
          exact List.length_map _ _
      _ ≤ limit := by
          unfold listSpxRows
          exact List.length_take_le _ _
  · unfold listSpxRows
    exact List.Pairwise.sublist (List.take_sublist _ _)
      (List.sorted_insertionSort keyRowGE _)

/-- Witness for C8 on a concrete two-row store with one expired row: the
fresh `SPXVN` key that the query returns matches the pattern and is
non-expired, and the result length respects the limit. -/
theorem list_spx_keys_sound_witness :
    (likeSPXVN "SPXVN1" = true ∧
      ∃ r, ("SPXVN1", r) ∈
          [("SPXVN1", (⟨Blob.ok [[("a", "b")]], none, 10⟩ : Row)),
            ("SPXVN2", (⟨Blob.ok [[("c", "d")]], none,
              10 - CACHE_TTL - 1⟩ : Row))] ∧
        10 - CACHE_TTL ≤ r.ts) ∧
      (db_list_spx_keys 1 10
          [("SPXVN1", (⟨Blob.ok [[("a", "b")]], none, 10⟩ : Row)),
            ("SPXVN2", (⟨Blob.ok [[("c", "d")]], none,
              10 - CACHE_TTL - 1⟩ : Row))]).length ≤ 1 :=
  ⟨(list_spx_keys_sound 1 10
      [("SPXVN1", (⟨Blob.ok [[("a", "b")]], none, 10⟩ : Row)),
        ("SPXVN2", (⟨Blob.ok [[("c", "d")]], none,
          10 - CACHE_TTL - 1⟩ : Row))]).1 "SPXVN1" (by decide),
    (list_spx_keys_sound 1 10
      [("SPXVN1", (⟨Blob.ok [[("a", "b")]], none, 10⟩ : Row)),
        ("SPXVN2", (⟨Blob.ok [[("c", "d")]], none,
          10 - CACHE_TTL - 1⟩ : Row))]).2.1⟩

/-! ### TTL bounds across the two tiers (C1) -/

theorem db_get_items_some {k : String} {now : Int} {db : DB} {l : Items}
    {m : Option Meta} {db2 : DB}
    (h : db_get k now db = (Except.ok (some l, m), db2)) :
    ∃ r, alFind db k = some r ∧ now - r.ts ≤ CACHE_TTL := by
  unfold db_get at h
  split at h
  · simp at h
  · split at h
    · simp at h
    · rename_i row heq
      split at h
      · simp at h
      · rename_i hexp
        exact ⟨row, heq, not_lt.mp hexp⟩

theorem mem_upsert_if {b : Bool} {key : String} {its : Items} {m : Meta}
    {t : Int} {db : DB} {p : String × Row}
    (hkey : b = true → key ≠ "") (hits : its ≠ [])
    (h : p ∈ (if b = true then
      main_db_upsert key its (some t) (some m) t db else db)) :
    (b = true ∧ p = (key, ⟨Blob.ok its, some (Blob.ok m), t⟩)) ∨
      (p ∈ db ∧ (b = true → p.1 ≠ key)) := by
  cases b with
  | false =>
    rw [if_neg (by simp)] at h
    right
    exact ⟨h, by simp⟩
  | true =>
    rw [if_pos rfl,
      main_db_upsert_eq key its (some t) m t db (hkey rfl) hits] at h
    rcases mem_alSet h with h1 | ⟨h2, h3⟩
    · left; exact ⟨rfl, h1⟩
    · right; exact ⟨h2, fun _ => h3⟩

theorem mem_set_if {b : Bool} {key : String} {e : MemEntry} {mem : Mem}
    {p : String × MemEntry}
    (h : p ∈ (if b = true then alSet mem key e else mem)) :
    (b = true ∧ p = (key, e)) ∨ (p ∈ mem ∧ (b = true → p.1 ≠ key)) := by
  cases b with
  | false =>
    rw [if_neg (by simp)] at h
    right
    exact ⟨h, by simp⟩
  | true =>
    rw [if_pos rfl] at h
    rcases mem_alSet h with h1 | ⟨h2, h3⟩
    · left; exact ⟨rfl, h1⟩
    · right; exact ⟨h2, fun _ => h3⟩

theorem writesKey_false {o : Order} {k : String}
    (h1 : strTruthy o.order_id = true → ¬(o.order_id).getD "" = k)
    (h2 : strTruthy o.tracking_number = true →
      ¬(o.tracking_number).getD "" = k) :
    writesKey o k = false := by
  unfold writesKey
  cases hoid : strTruthy o.order_id with
  | false =>
    cases htn : strTruthy o.tracking_number with
    | false => simp
    | true => simp [h2 htn]
  | true =>
    cases htn : strTruthy o.tracking_number with
    | false => simp [h1 hoid]
    | true => simp [h1 hoid, h2 htn]

theorem writesKey_true_oid {o : Order}
    (hi : ¬(o.product_info).getD [] = [])
    (hoid : strTruthy o.order_id = true) :
    writesKey o ((o.order_id).getD "") = true := by
  unfold writesKey
  simp [hoid, hi]

theorem writesKey_true_tn {o : Order}
    (hi : ¬(o.product_info).getD [] = [])
    (htn : strTruthy o.tracking_number = true) :
    writesKey o ((o.tracking_number).getD "") = true := by
  unfold writesKey
  simp [htn, hi]

theorem cache_get_all_fallback_mem (key : String) (now : Int) (s : Sys) :
    ((cache_get_all.cacheGetAllFallback key now s).2).mem = s.mem ∨
      ∃ r l m2, alFind s.db key = some r ∧ now - r.ts ≤ CACHE_TTL ∧
        ((cache_get_all.cacheGetAllFallback key now s).2).mem =
          alSet s.mem key ⟨l, m2, now⟩ := by
  unfold cache_get_all.cacheGetAllFallback
  rcases hget : db_get key now s.db with ⟨dres, db2⟩
  cases dres with
  | error e => left; rfl
  | ok v =>
    rcases v with ⟨items, m⟩
    cases items with
    | none => left; rfl
    | some l =>
      by_cases hl : l = []
      · left; simp [hl]
      · right
        obtain ⟨r, hfind, hfr⟩ := db_get_items_some hget
        exact ⟨r, l, m.getD [], hfind, hfr, by simp [hl]⟩

theorem cache_get_all_mem_cases (key : String) (now : Int) (s : Sys) :
    ((cache_get_all key now s).2).mem = s.mem ∨
      ∃ r l m2, alFind s.db key = some r ∧ now - r.ts ≤ CACHE_TTL ∧
        ((cache_get_all key now s).2).mem = alSet s.mem key ⟨l, m2, now⟩ := by
  unfold cache_get_all
  split
  · left; rfl
  · split
    · split
      · left; rfl
      · exact cache_get_all_fallback_mem key now s
    · exact cache_get_all_fallback_mem key now s

theorem inv_step (w : String → Option Int) (s : Sys) (e : Op × Int)
    (hInv : Inv w s) : Inv (lastWriteUpd w e) (stepSys s e) := by
  rcases e with ⟨op, t⟩
  cases op with
  | restart =>
    exact ⟨fun k r hr => hInv.1 k r hr,
      fun k e h => absurd h (List.not_mem_nil _)⟩
  | purge =>
    refine ⟨?_, fun k e h => hInv.2 k e h⟩
    intro k r hr
    exact hInv.1 k r (List.mem_filter.mp hr).1
  | lookup key =>
    constructor
    · intro k r hr
      rcases cache_get_all_db key t s with h1 | h1
      · rw [show stepSys s (Op.lookup key, t) =
            (cache_get_all key t s).2 from rfl] at hr
        rw [h1] at hr
        exact hInv.1 k r hr
      · rw [show stepSys s (Op.lookup key, t) =
            (cache_get_all key t s).2 from rfl] at hr
        rw [h1] at hr
        rcases db_get_state key t s.db with h2 | h2
        · rw [h2] at hr; exact hInv.1 k r hr
        · rw [h2] at hr; exact hInv.1 k r (mem_alErase hr).1
    · intro k e he
      rw [show stepSys s (Op.lookup key, t) =
          (cache_get_all key t s).2 from rfl] at he
      rcases cache_get_all_mem_cases key t s with h1 | ⟨r, l, m2, hfind, hfr, h1⟩
      · rw [h1] at he; exact hInv.2 k e he
      · rw [h1] at he
        rcases mem_alSet he with he1 | ⟨he2, _⟩
        · have hk : k = key := congrArg Prod.fst he1
          have hee : e = ⟨l, m2, t⟩ := congrArg Prod.snd he1
          obtain ⟨tw, hw, hts⟩ := hInv.1 key r (alFind_eq_some hfind)
          refine ⟨tw, by rw [hk]; exact hw, ?_⟩
          rw [hee]
          show (t : Int) ≤ tw + CACHE_TTL
          omega
        · exact hInv.2 k e he2
  | store o =>
    by_cases hi : (o.product_info).getD [] = []
    · have hstep : stepSys s (Op.store o, t) = s := by
        show cache_store_from_order o t s = s
        unfold cache_store_from_order
        rw [if_pos hi]
      have hwk : ∀ k, writesKey o k = false := by
        intro k
        unfold writesKey
        rw [hi]
        simp
      rw [hstep]
      constructor
      · intro k r hr
        obtain ⟨tw, hw, hts⟩ := hInv.1 k r hr
        exact ⟨tw, by simp [lastWriteUpd, hwk k, hw], hts⟩
      · intro k e he
        obtain ⟨tw, hw, hts⟩ := hInv.2 k e he
        exact ⟨tw, by simp [lastWriteUpd, hwk k, hw], hts⟩
    · have hstep : stepSys s (Op.store o, t) = cache_store_from_order o t s :=
        rfl
      rw [hstep, cache_store_eq o t s hi]
      have httl : (0 : Int) ≤ CACHE_TTL := by norm_num [CACHE_TTL]
      constructor
      · intro k r hr
        simp only at hr
        rcases mem_upsert_if (fun h => strTruthy_ne h) hi hr with
          ⟨htn, hp⟩ | ⟨hr1, hne1⟩
        · have hk : k = (o.tracking_number).getD "" := congrArg Prod.fst hp
          have hrr : r = ⟨Blob.ok ((o.product_info).getD []),
              some (Blob.ok [("address", (o.address).getD [])]), t⟩ :=
            congrArg Prod.snd hp
          refine ⟨t, ?_, by rw [hrr]⟩
          show (if writesKey o k then some t else w k) = some t
          rw [hk, writesKey_true_tn hi htn]
          rfl
        · rcases mem_upsert_if (fun h => strTruthy_ne h) hi hr1 with
            ⟨hoid, hp⟩ | ⟨hr2, hne2⟩
          · have hk : k = (o.order_id).getD "" := congrArg Prod.fst hp
            have hrr : r = ⟨Blob.ok ((o.product_info).getD []),
                some (Blob.ok [("address", (o.address).getD [])]), t⟩ :=
              congrArg Prod.snd hp
            refine ⟨t, ?_, by rw [hrr]⟩
            show (if writesKey o k then some t else w k) = some t
            rw [hk, writesKey_true_oid hi hoid]
            rfl
          · obtain ⟨tw, hw, hts⟩ := hInv.1 k r hr2
            refine ⟨tw, ?_, hts⟩
            show (if writesKey o k then some t else w k) = some tw
            rw [writesKey_false (fun h hh => hne2 h hh.symm)
              (fun h hh => hne1 h hh.symm)]
            simpa using hw
      · intro k e he
        simp only at he
        rcases mem_set_if he with ⟨htn, hp⟩ | ⟨he1, hne1⟩
        · have hk : k = (o.tracking_number).getD "" := congrArg Prod.fst hp
          have hee : e = ⟨(o.product_info).getD [],
              [("address", (o.address).getD [])], t⟩ := congrArg Prod.snd hp
          refine ⟨t, ?_, ?_⟩
          · show (if writesKey o k then some t else w k) = some t
            rw [hk, writesKey_true_tn hi htn]
            rfl
          · rw [hee]
            show (t : Int) ≤ t + CACHE_TTL
            omega
        · rcases mem_set_if he1 with ⟨hoid, hp⟩ | ⟨he2, hne2⟩
          · have hk : k = (o.order_id).getD "" := congrArg Prod.fst hp
            have hee : e = ⟨(o.product_info).getD [],
                [("address", (o.address).getD [])], t⟩ := congrArg Prod.snd hp
            refine ⟨t, ?_, ?_⟩
            · show (if writesKey o k then some t else w k) = some t
              rw [hk, writesKey_true_oid hi hoid]
              rfl
            · rw [hee]
              show (t : Int) ≤ t + CACHE_TTL
              omega
          · obtain ⟨tw, hw, hts⟩ := hInv.2 k e he2
            refine ⟨tw, ?_, hts⟩
            show (if writesKey o k then some t else w k) = some tw
            rw [writesKey_false (fun h hh => hne2 h hh.symm)
              (fun h hh => hne1 h hh.symm)]
            simpa using hw

theorem inv_init : Inv (fun _ => none) ⟨[], []⟩ :=
  ⟨fun _ _ h => absurd h (List.not_mem_nil _),
    fun _ _ h => absurd h (List.not_mem_nil _)⟩

theorem inv_run (tr : List (Op × Int)) (w : String → Option Int) (s : Sys)
    (hInv : Inv w s) :
    Inv (tr.foldl lastWriteUpd w) (runSys s tr) := by
  induction tr generalizing w s with
  | nil => exact hInv
  | cons e es ih => exact ih _ _ (inv_step w s e hInv)

theorem fallback_bound {w : String → Option Int} {s : Sys} {k : String}
    {tq : Int} {res : LookupRes} {s2 : Sys} {l : Items} (hInv : Inv w s)
    (h : cache_get_all.cacheGetAllFallback k tq s = (Except.ok res, s2))
    (hi : res.items = some l) :
    ∃ t, w k = some t ∧ tq ≤ t + 2 * CACHE_TTL := by
  unfold cache_get_all.cacheGetAllFallback at h
  rcases hget : db_get k tq s.db with ⟨dres, db2⟩
  rw [hget] at h
  cases dres with
  | error e => simp at h
  | ok v =>
    rcases v with ⟨items, m⟩
    cases items with
    | none =>
      have hres : (⟨none, m⟩ : LookupRes) = res :=
        Except.ok.inj (congrArg Prod.fst h)
      rw [← hres] at hi
      simp at hi
    | some l2 =>
      obtain ⟨r, hfind, hfr⟩ := db_get_items_some hget
      obtain ⟨t, hw, hts⟩ := hInv.1 k r (alFind_eq_some hfind)
      refine ⟨t, hw, ?_⟩
      have httl : (0 : Int) ≤ CACHE_TTL := by norm_num [CACHE_TTL]
      omega

theorem lookup_bound_of_inv {w : String → Option Int} {s : Sys}
    {k : String} {tq : Int} {res : LookupRes} {s2 : Sys} {l : Items}
    (hInv : Inv w s) (h : cache_get_all k tq s = (Except.ok res, s2))
    (hi : res.items = some l) :
    ∃ t, w k = some t ∧ tq ≤ t + 2 * CACHE_TTL := by
  unfold cache_get_all at h
  split at h
  · have hres : (⟨none, none⟩ : LookupRes) = res :=
      Except.ok.inj (congrArg Prod.fst h)
    rw [← hres] at hi
    simp at hi
  · split at h
    · split at h
      · rename_i e heq hfr
        obtain ⟨t, hw, hts⟩ := hInv.2 k e (alFind_eq_some heq)
        refine ⟨t, hw, ?_⟩
        omega
      · exact fallback_bound hInv h hi
    · exact fallback_bound hInv h hi

/-- Counterexample to C1 as stated: a record is stored at time `0`; the
process restarts (RAM cleared, durable row kept); a lookup at time
`CACHE_TTL` (still fresh) serves it from the durable store and backfills
RAM with the fresh timestamp `CACHE_TTL`; a lookup at time
`2 * CACHE_TTL` — strictly more than the TTL after the record's original
write — then still returns the record's data, from the refreshed RAM
entry.  So an earlier lookup's memory backfill does extend the time the
record can be served. -/
theorem cache_serves_expired_record_counterexample :
    (cache_get_all "A1" (2 * CACHE_TTL)
        (runSys ⟨[], []⟩
          [(Op.store ⟨some "A1", some "B2", some [[("name", "Shirt")]],
              some [("shipping_name", "X")]⟩, 0),
            (Op.restart, 0),
            (Op.lookup "A1", CACHE_TTL)])).1 =
      Except.ok ⟨some [[("name", "Shirt")]],
        some [("address", [("shipping_name", "X")])]⟩ ∧
      2 * CACHE_TTL - 0 > CACHE_TTL := by
  exact ⟨rfl, by decide⟩

/-- C1 amended: after any trace of operations (stores, lookups, purges,
restarts) from the empty initial state, a lookup at time `tq` can return
a record's items only if the key was written at some time `t` with
`tq ≤ t + 2 * CACHE_TTL`: the durable tier alone never serves a record
more than one TTL past its last write, and a memory backfill (which
stamps the read time) can extend service by at most one further TTL —
never beyond twice the TTL after the last write. -/
theorem lookup_serves_at_most_two_ttl (tr : List (Op × Int)) (k : String)
    (tq : Int) (res : LookupRes) (s2 : Sys) (l : Items)
    (h : cache_get_all k tq (runSys ⟨[], []⟩ tr) = (Except.ok res, s2))
    (hl : res.items = some l) :
    ∃ t, lastWrite tr k = some t ∧ tq ≤ t + 2 * CACHE_TTL :=
  lookup_bound_of_inv (inv_run tr (fun _ => none) ⟨[], []⟩ inv_init) h hl

/-- Witness for the amended C1: a store at time `0` followed by a lookup
at time `5` is within the bound. -/
theorem lookup_serves_at_most_two_ttl_witness :
    ∃ t, lastWrite
        [(Op.store ⟨some "A1", some "B2", some [[("name", "Shirt")]],
            some [("shipping_name", "X")]⟩, 0)] "A1" = some t ∧
      (5 : Int) ≤ t + 2 * CACHE_TTL :=
  lookup_serves_at_most_two_ttl
    [(Op.store ⟨some "A1", some "B2", some [[("name", "Shirt")]],
        some [("shipping_name", "X")]⟩, 0)]
    "A1" 5
    ⟨some [[("name", "Shirt")]], some [("address", [("shipping_name", "X")])]⟩
    (runSys ⟨[], []⟩
      [(Op.store ⟨some "A1", some "B2", some [[("name", "Shirt")]],
          some [("shipping_name", "X")]⟩, 0)])
    [[("name", "Shirt")]] rfl rfl

end BotSpx
